import Mathlib

/-!
Verification of the `wr` jobqueue client (`package jobqueue`, client file).

The definitions below are a shallow embedding of the client code: the
outcome classifier and supervisory loop of `Client.Execute`, the
`Reserve`/`ReserveScheduled` first-reserve logic, the local state updates
of `ended`/`Archive`/`Release`/`Bury`, the final-state report retry loop,
the post-run `Unmount` error handling, the pipefail command quoting, and a
lock-discipline model of the `teMutex` that serialises `Touch` against the
end-state RPCs.  Machine integers are modelled as `Int`/`Nat` (no value in
this code approaches overflow), byte slices as `List Nat`, and fallible or
stateful code as explicit state passing.
-/

namespace Jobqueue

/-- The FailReason* string constants stored on Jobs (source lines 46-63). -/
def FailReasonEnv : String := "failed to get environment variables"

def FailReasonCwd : String := "working directory does not exist"

def FailReasonStart : String := "command failed to start"

def FailReasonCPerm : String := "command permission problem"

def FailReasonCFound : String := "command not found"

def FailReasonCExit : String := "command invalid exit code"

def FailReasonExit : String := "command exited non-zero"

def FailReasonRAM : String := "command used too much RAM"

def FailReasonTime : String := "command used too much time"

def FailReasonAbnormal : String := "command failed to complete normally"

def FailReasonSignal : String := "runner received a signal to stop"

def FailReasonMount : String := "mounting of remote file system(s) failed"

def FailReasonUpload : String := "failed to upload files to remote file system"

def FailReasonKilled : String := "killed by user request"

/-- The result of `cmd.Wait()` in `Execute` as the classifier sees it:
either the wait error was an `exec.ExitError` carrying the child's wait
status (`exitErr`), or some other internal error with no exit status
(`internalErr`), or the wait succeeded (`ok`, which in Go entails exit
status 0, carried here explicitly). -/
inductive WaitResult
  | ok (code : Int)
  | exitErr (code : Int)
  | internalErr
  deriving DecidableEq, Repr

/-- In Go, `cmd.Wait()` returns a nil error only for exit status 0, and an
`exec.ExitError` only for an abnormal exit (non-zero code, or -1 when the
child was killed by a signal); `exitErr 0` and `ok c` with `c ≠ 0` are
unreachable. -/
def WaitResult.valid : WaitResult → Prop
  | .ok code => code = 0
  | .exitErr code => code ≠ 0
  | .internalErr => True

instance : DecidablePred WaitResult.valid := by
  intro w
  cases w <;> simp [WaitResult.valid] <;> infer_instance

/-- The classification outputs of `Execute` (source lines 663-724): the
exit code recorded for the job, the three disposition flags, and the
recorded fail reason (empty string when none was set). -/
structure Outcome where
  exitcode : Int
  dobury : Bool
  dorelease : Bool
  doarchive : Bool
  failreason : String
  deriving DecidableEq, Repr

/-- The outcome classifier of `Execute` (source lines 663-724), translated
branch for branch.  Note that in the `killCalled` branch the code has
already set `dorelease = true` (it is inside the `default:` case) before
setting `dobury = true`; both flags end up true there, exactly as in the
source. -/
def classify (w : WaitResult) (ranoutMem signalled ranoutTime killCalled : Bool) : Outcome :=
  match w with
  | .exitErr code =>
    if code = 126 then ⟨126, true, false, false, FailReasonCPerm⟩
    else if code = 127 then ⟨127, true, false, false, FailReasonCFound⟩
    else if code = 128 then ⟨128, true, false, false, FailReasonCExit⟩
    else if ranoutMem then ⟨code, false, true, false, FailReasonRAM⟩
    else if signalled then
      if ranoutTime then ⟨code, false, true, false, FailReasonTime⟩
      else ⟨code, false, true, false, FailReasonSignal⟩
    else if killCalled then ⟨code, true, true, false, FailReasonKilled⟩
    else ⟨code, false, true, false, FailReasonExit⟩
  | .internalErr => ⟨255, false, true, false, FailReasonAbnormal⟩
  | .ok code => ⟨code, false, false, true, ""⟩

/-- The three terminal dispositions a job can be reported with. -/
inductive Disposition
  | bury
  | release
  | archive
  deriving DecidableEq, Repr

/-- Which end-state call the final report loop makes (source lines
841-847): `if dobury ... else if dorelease ... else if doarchive ...`. -/
def dispositionOf (o : Outcome) : Option Disposition :=
  if o.dobury then some .bury
  else if o.dorelease then some .release
  else if o.doarchive then some .archive
  else none

/-- The disposition together with the recorded fail reason. -/
def dispReason (o : Outcome) : Option Disposition × String :=
  (dispositionOf o, o.failreason)

/-- C1: for every Execute run whose child exit was collected, disposition
and FailReason follow the first-match precedence table: 126 → bury/cperm,
127 → bury/cfound, 128 → bury/cexit; any other non-zero exit releases with
RAM, then time (signalled ∧ ranoutTime), then signal, buries when
killCalled, else releases with exited-non-zero; an internal wait error
releases as abnormal with exit code 255; exit code 0 archives with no fail
reason. -/
theorem c1_outcome_precedence :
    ∀ (rm sg rt kc : Bool) (c : Int),
      dispReason (classify (.exitErr 126) rm sg rt kc) = (some .bury, FailReasonCPerm)
      ∧ dispReason (classify (.exitErr 127) rm sg rt kc) = (some .bury, FailReasonCFound)
      ∧ dispReason (classify (.exitErr 128) rm sg rt kc) = (some .bury, FailReasonCExit)
      ∧ (c ≠ 126 → c ≠ 127 → c ≠ 128 → c ≠ 0 →
          dispReason (classify (.exitErr c) rm sg rt kc) =
            (if rm then (some .release, FailReasonRAM)
             else if sg then
               (if rt then (some .release, FailReasonTime)
                else (some .release, FailReasonSignal))
             else if kc then (some .bury, FailReasonKilled)
             else (some .release, FailReasonExit)))
      ∧ dispReason (classify .internalErr rm sg rt kc) = (some .release, FailReasonAbnormal)
      ∧ (classify .internalErr rm sg rt kc).exitcode = 255
      ∧ dispReason (classify (.ok 0) rm sg rt kc) = (some .archive, "") := by
  intro rm sg rt kc c
  refine ⟨rfl, rfl, rfl, ?_, rfl, rfl, rfl⟩
  intro h126 h127 h128 _
  cases rm <;> cases sg <;> cases rt <;> cases kc <;>
    simp [classify, dispReason, dispositionOf, h126, h127, h128]

/-- Witness for C1 at a concrete input: a job signalled after overrunning
its time, exiting with code 42, is released with the time fail reason. -/
theorem c1_outcome_precedence_witness :
    dispReason (classify (.exitErr 42) false true true false)
      = (some .release, FailReasonTime) := by
  have h := (c1_outcome_precedence false true true false 42).2.2.2.1
    (by decide) (by decide) (by decide) (by decide)
  simpa using h

/-- The mutable state shared between the supervisory goroutine of
`Execute` (source lines 546-627) and the post-wait classifier: the peak
child memory sample, the four latched flags, whether `cmd.Process.Kill`
has been called, and whether the goroutine has returned. -/
structure SupState where
  peakmem : Nat
  ranoutMem : Bool
  ranoutTime : Bool
  signalled : Bool
  killCalled : Bool
  killed : Bool
  done : Bool
  deriving DecidableEq, Repr

/-- The state at the start of the supervisory goroutine. -/
def supInit : SupState := ⟨0, false, false, false, false, false, false⟩

/-- One arm of the supervisory goroutine's `select`: a registered abort
signal arrives; a touch tick fires (recording whether `time.Now()` is
after `endT`, whether the `Touch` reply had `KillCalled` set, and whether
`Touch` errored); the 1-second memory ticker fires (`none` when
`currentMemory` errored, else the sampled MiB, nonnegative per the spec's
description of `currentMemory`); or the stop channel fires. -/
inductive SupEvent
  | sig
  | touchTick (afterEndT killRequested touchErrored : Bool)
  | memTick (sample : Option Nat)
  | stopChecking
  deriving DecidableEq, Repr

/-- One iteration of the supervisory goroutine's `select` loop (source
lines 559-627), with `ram = job.Requirements.RAM` in MiB.  After the
goroutine has returned (`done`), further events have no effect. -/
def supStep (ram : Nat) (s : SupState) (e : SupEvent) : SupState :=
  if s.done then s
  else
    match e with
    | .sig => { s with killed := true, signalled := true, done := true }
    | .touchTick afterEndT killRequested _ =>
      let s1 := if !s.ranoutTime && afterEndT then { s with ranoutTime := true } else s
      if killRequested then { s1 with killed := true, killCalled := true, done := true }
      else s1
    | .memTick none => s
    | .memTick (some m) =>
      if s.peakmem < m then
        if ram < m then { s with peakmem := m, killed := true, ranoutMem := true, done := true }
        else { s with peakmem := m }
      else s
    | .stopChecking => { s with done := true }

/-- Running the supervisory loop over a sequence of events. -/
def supRunFrom (ram : Nat) (s : SupState) (evs : List SupEvent) : SupState :=
  evs.foldl (supStep ram) s

/-- The child PSS samples the supervisory loop actually observed: the
successful `currentMemory` results delivered before the goroutine
returned. -/
def processedSamples (ram : Nat) : SupState → List SupEvent → List Nat
  | _, [] => []
  | s, e :: es =>
    (if s.done then []
     else
       match e with
       | .memTick (some m) => [m]
       | _ => []) ++ processedSamples ram (supStep ram s e) es

/-- An event that triggers none of the three kill sites: not an abort
signal, not a touch reply with `killRequested`, and any memory sample is
within the RAM requirement. -/
def benignEvent (ram : Nat) : SupEvent → Bool
  | .sig => false
  | .touchTick _ killRequested _ => !killRequested
  | .memTick (some m) => decide (m ≤ ram)
  | .memTick none => true
  | .stopChecking => true

/-- None of the failure flags is latched and the child has not been
killed. -/
def calm (s : SupState) : Prop :=
  s.ranoutMem = false ∧ s.signalled = false ∧ s.killCalled = false ∧ s.killed = false

theorem calm_supStep {ram : Nat} {s : SupState} {e : SupEvent}
    (hb : benignEvent ram e = true) (hc : calm s) : calm (supStep ram s e) := by
  obtain ⟨h1, h2, h3, h4⟩ := hc
  unfold supStep
  by_cases hd : s.done
  · simpa [hd] using ⟨h1, h2, h3, h4⟩
  · cases e with
    | sig => simp [benignEvent] at hb
    | touchTick a kr te =>
      simp [benignEvent] at hb
      subst hb
      simp [hd, calm]
      split <;> simp [h1, h2, h3, h4]
    | memTick ms =>
      cases ms with
      | none => simpa [hd] using ⟨h1, h2, h3, h4⟩
      | some m =>
        simp [benignEvent] at hb
        simp [hd, calm]
        split
        · split
          · omega
          · simp [h1, h2, h3, h4]
        · simp [h1, h2, h3, h4]
    | stopChecking => simpa [hd, calm] using ⟨h1, h2, h3, h4⟩

theorem calm_supRunFrom {ram : Nat} {evs : List SupEvent}
    (hb : evs.all (benignEvent ram) = true) {s : SupState} (hc : calm s) :
    calm (supRunFrom ram s evs) := by
  induction evs generalizing s with
  | nil => exact hc
  | cons e es ih =>
    rw [List.all_cons, Bool.and_eq_true] at hb
    exact ih hb.2 (calm_supStep hb.1 hc)

/-- C2: the supervisor never kills the child merely for exceeding
`Requirements.Time`: a touch tick with no kill request never kills and a
tick after `endT` only latches `ranoutTime`; any kill is due to an abort
signal, a touch reply with `killRequested`, or a memory-limit breach; and
over any event sequence with none of those, no failure flag is latched,
the child is never killed, and an exit-0 child is archived. -/
theorem c2_time_overrun_not_enforced :
    ∀ (ram : Nat) (s : SupState) (afterEndT touchErrored : Bool) (e : SupEvent)
      (evs : List SupEvent),
      (supStep ram s (.touchTick afterEndT false touchErrored)).killed = s.killed
      ∧ (s.done = false → afterEndT = true →
          (supStep ram s (.touchTick afterEndT false touchErrored)).ranoutTime = true)
      ∧ ((supStep ram s e).killed = true → s.killed = true
          ∨ e = .sig
          ∨ (∃ a t, e = .touchTick a true t)
          ∨ (∃ m, e = .memTick (some m) ∧ s.peakmem < m ∧ ram < m))
      ∧ (evs.all (benignEvent ram) = true →
          (supRunFrom ram supInit evs).signalled = false
          ∧ (supRunFrom ram supInit evs).killCalled = false
          ∧ (supRunFrom ram supInit evs).ranoutMem = false
          ∧ (supRunFrom ram supInit evs).killed = false
          ∧ dispReason
              (classify (.ok 0) (supRunFrom ram supInit evs).ranoutMem
                (supRunFrom ram supInit evs).signalled
                (supRunFrom ram supInit evs).ranoutTime
                (supRunFrom ram supInit evs).killCalled)
              = (some .archive, "")) := by
  intro ram s afterEndT touchErrored e evs
  refine ⟨?_, ?_, ?_, ?_⟩
  · unfold supStep
    by_cases hd : s.done
    · simp [hd]
    · simp [hd]
      split <;> simp
  · intro hd ha
    subst ha
    unfold supStep
    simp [hd]
    split <;> simp_all
  · intro hk
    by_cases hkill : s.killed
    · exact Or.inl hkill
    · unfold supStep at hk
      by_cases hd : s.done
      · simp [hd] at hk
        exact absurd hk hkill
      · cases e with
        | sig => exact Or.inr (Or.inl rfl)
        | touchTick a kr te =>
          cases kr with
          | false =>
            simp [hd] at hk
            split at hk <;> simp_all
          | true => exact Or.inr (Or.inr (Or.inl ⟨a, te, rfl⟩))
        | memTick ms =>
          cases ms with
          | none => simp [hd] at hk; exact absurd hk hkill
          | some m =>
            simp [hd] at hk
            refine Or.inr (Or.inr (Or.inr ⟨m, rfl, ?_, ?_⟩)) <;>
              (split at hk <;> [skip; (exact absurd hk hkill)])
            · split at hk
              · omega
              · simp at hk
                exact absurd hk hkill
            · split at hk
              · omega
              · simp at hk
                exact absurd hk hkill
        | stopChecking => simp [hd] at hk; exact absurd hk hkill
  · intro hb
    have hc := calm_supRunFrom hb (s := supInit) ⟨rfl, rfl, rfl, rfl⟩
    obtain ⟨h1, h2, h3, h4⟩ := hc
    exact ⟨h2, h3, h1, h4, rfl⟩

/-- Witness for C2: a run that overruns its time (a touch tick after
`endT`), takes a benign memory sample and stops, never kills the child and
ends archived. -/
theorem c2_time_overrun_not_enforced_witness :
    (supRunFrom 10 supInit
        [.touchTick true false false, .memTick (some 4), .stopChecking]).killed = false
    ∧ (supRunFrom 10 supInit
        [.touchTick true false false, .memTick (some 4), .stopChecking]).ranoutTime = true
    ∧ dispReason
        (classify (.ok 0)
          (supRunFrom 10 supInit
            [.touchTick true false false, .memTick (some 4), .stopChecking]).ranoutMem
          (supRunFrom 10 supInit
            [.touchTick true false false, .memTick (some 4), .stopChecking]).signalled
          (supRunFrom 10 supInit
            [.touchTick true false false, .memTick (some 4), .stopChecking]).ranoutTime
          (supRunFrom 10 supInit
            [.touchTick true false false, .memTick (some 4), .stopChecking]).killCalled)
        = (some .archive, "") := by
  have h := (c2_time_overrun_not_enforced 10 supInit true false .sig
    [.touchTick true false false, .memTick (some 4), .stopChecking]).2.2.2 (by decide)
  exact ⟨h.2.2.2.1, by decide, h.2.2.2.2⟩

/-- The final peak-memory adjustment of `Execute` before reporting
(source lines 642-661, Linux branch where `ru.Maxrss` is in KiB): when no
memory tick raised `peakmem`, seed it from the OS rusage maximum resident
set normalised to MiB; then add the runner's own current memory, with a
fixed 10 MiB used when the self-probe errors.  `selfMem` is the result of
`currentMemory(os.Getpid())`, `none` on error. -/
def reportedPeakRAM (peakmem maxrssKb : Nat) (selfMem : Option Nat) : Nat :=
  (if peakmem = 0 then maxrssKb / 1024 else peakmem)
    + (match selfMem with
       | some m => m
       | none => 10)

theorem peakmem_supStep_mono (ram : Nat) (s : SupState) (e : SupEvent) :
    s.peakmem ≤ (supStep ram s e).peakmem := by
  unfold supStep
  by_cases hd : s.done
  · simp [hd]
  · cases e with
    | sig => simp [hd]
    | touchTick a kr te => simp [hd]; split <;> split <;> simp
    | memTick ms =>
      cases ms with
      | none => simp [hd]
      | some m =>
        simp [hd]
        split
        · split <;> (simp; omega)
        · simp
    | stopChecking => simp [hd]

theorem peakmem_supRunFrom_mono (ram : Nat) (s : SupState) (evs : List SupEvent) :
    s.peakmem ≤ (supRunFrom ram s evs).peakmem := by
  induction evs generalizing s with
  | nil => exact Nat.le_refl _
  | cons e es ih =>
    exact Nat.le_trans (peakmem_supStep_mono ram s e) (ih (supStep ram s e))

theorem processedSamples_le_peakmem (ram : Nat) (s : SupState) (evs : List SupEvent) :
    ∀ m ∈ processedSamples ram s evs, m ≤ (supRunFrom ram s evs).peakmem := by
  induction evs generalizing s with
  | nil => intro m hm; simp [processedSamples] at hm
  | cons e es ih =>
    intro m hm
    unfold processedSamples at hm
    rw [List.mem_append] at hm
    rcases hm with hm | hm
    · by_cases hd : s.done
      · simp [hd] at hm
      · cases e with
        | sig => simp [hd] at hm
        | touchTick a kr te => simp [hd] at hm
        | memTick ms =>
          cases ms with
          | none => simp [hd] at hm
          | some m2 =>
            simp [hd] at hm
            subst hm
            have hstep : m ≤ (supStep ram s (.memTick (some m))).peakmem := by
              unfold supStep
              simp [hd]
              split
              · split <;> simp
              · omega
            exact Nat.le_trans hstep
              (peakmem_supRunFrom_mono ram (supStep ram s (.memTick (some m))) es)
        | stopChecking => simp [hd] at hm
    · exact ih (supStep ram s e) m hm

/-- Counterexample to C3 as stated: a child sampled at 1 MiB whose runner
self-probe succeeds with 2 MiB is reported with peak memory 3 MiB, which
is below the claimed 10 MiB floor. -/
theorem c3_counterexample :
    (supRunFrom 100 supInit [.memTick (some 1)]).peakmem = 1
    ∧ processedSamples 100 supInit [.memTick (some 1)] = [1]
    ∧ reportedPeakRAM 1 5000 (some 2) = 3
    ∧ ¬ 10 ≤ reportedPeakRAM 1 5000 (some 2) := by decide

/-- C3 amended: the reported peak memory is ≥ every child PSS sample the
supervisor observed and ≥ the final `peakmem` value (seeded from the OS
rusage maximum when no sample raised it), and it is ≥ 10 MiB whenever the
runner's self-memory probe fails; the 10 MiB floor holds only in that
failure case, since a successful probe adds the probed amount instead. -/
theorem c3_reported_peak_bounds :
    ∀ (ram maxrssKb : Nat) (selfMem : Option Nat) (evs : List SupEvent),
      (∀ m ∈ processedSamples ram supInit evs,
        m ≤ reportedPeakRAM (supRunFrom ram supInit evs).peakmem maxrssKb selfMem)
      ∧ (supRunFrom ram supInit evs).peakmem
          ≤ reportedPeakRAM (supRunFrom ram supInit evs).peakmem maxrssKb selfMem
      ∧ (selfMem = none →
          10 ≤ reportedPeakRAM (supRunFrom ram supInit evs).peakmem maxrssKb selfMem) := by
  intro ram maxrssKb selfMem evs
  have hle : (supRunFrom ram supInit evs).peakmem
      ≤ reportedPeakRAM (supRunFrom ram supInit evs).peakmem maxrssKb selfMem := by
    unfold reportedPeakRAM
    split <;> cases selfMem <;> simp <;> omega
  refine ⟨?_, hle, ?_⟩
  · intro m hm
    exact Nat.le_trans (processedSamples_le_peakmem ram supInit evs m hm) hle
  · intro hself
    subst hself
    show 10 ≤ (if _ = 0 then maxrssKb / 1024 else _) + 10
    split <;> omega

/-- Witness for C3 amended: a run observing one 3 MiB sample with a failed
self-probe reports at least 3 MiB and at least the 10 MiB fallback. -/
theorem c3_reported_peak_bounds_witness :
    3 ≤ reportedPeakRAM (supRunFrom 100 supInit [.memTick (some 3)]).peakmem 0 none
    ∧ 10 ≤ reportedPeakRAM (supRunFrom 100 supInit [.memTick (some 3)]).peakmem 0 none := by
  have h := c3_reported_peak_bounds 100 0 none [.memTick (some 3)]
  exact ⟨h.1 3 (by decide), h.2.2 rfl⟩

/-- The first-reserve computation shared by `Reserve` (source lines
304-315) and `ReserveScheduled` (source lines 328-339): `fr` is true iff
`hasReserved` was false, and `hasReserved` is set to true before the
request is sent, whether or not the RPC then succeeds.  Returns the
`FirstReserve` value the request carries and the new `hasReserved`. -/
def reserveFirstReserve (hasReserved : Bool) : Bool × Bool :=
  if hasReserved then (false, hasReserved) else (true, true)

/-- A sequence of `Reserve`/`ReserveScheduled` calls on one client.  Each
event records whether the call was `ReserveScheduled` and whether its RPC
succeeded; the result pairs the `FirstReserve` value each request carried
with that success flag.  The RPC outcome does not feed back into
`hasReserved` in the source, and both methods update it identically. -/
def reserveRun (hasReserved : Bool) : List (Bool × Bool) → List (Bool × Bool)
  | [] => []
  | (_, ok) :: rest =>
    let p := reserveFirstReserve hasReserved
    (p.1, ok) :: reserveRun p.2 rest

/-- C4 as stated: `FirstReserve` is true on exactly the first successful
reserve call, i.e. a request carries true iff its index is the first whose
RPC succeeded. -/
def c4ClaimAt (tr : List (Bool × Bool)) : Prop :=
  ∀ i, i < tr.length →
    ((tr.getD i (false, false)).1 = true ↔ List.findIdx? (fun p => p.2) tr = some i)

/-- Counterexample to C4 as stated: when the first reserve call's RPC
fails and the second succeeds, the failed first request carried
`FirstReserve = true` and the first successful request carried
`FirstReserve = false`. -/
theorem c4_counterexample :
    reserveRun false [(false, false), (false, true)] = [(true, false), (false, true)]
    ∧ ¬ c4ClaimAt (reserveRun false [(false, false), (false, true)]) := by
  refine ⟨rfl, fun h => ?_⟩
  have h0 := (h 0 (by decide)).mp
  simp [reserveRun, reserveFirstReserve, List.findIdx?] at h0

theorem reserveRun_hasReserved_fst (evs : List (Bool × Bool)) :
    (reserveRun true evs).map Prod.fst = List.replicate evs.length false := by
  induction evs with
  | nil => rfl
  | cons e rest ih =>
    obtain ⟨sched, ok⟩ := e
    simp [reserveRun, reserveFirstReserve, ih, List.replicate_succ]

/-- C4 amended: on a fresh client, the request sent by `Reserve` or
`ReserveScheduled` carries `FirstReserve = true` on exactly the first call
(whether or not that call's RPC succeeds), and `FirstReserve = false` on
every subsequent call. -/
theorem c4_first_reserve_first_call :
    ∀ (e : Bool × Bool) (rest : List (Bool × Bool)),
      (reserveRun false (e :: rest)).map Prod.fst
        = true :: List.replicate rest.length false := by
  intro e rest
  obtain ⟨sched, ok⟩ := e
  simp [reserveRun, reserveFirstReserve, reserveRun_hasReserved_fst]

/-- Go `strings.Contains(s, sub)` on strings as character lists: some
suffix of `s` starts with `sub`. -/
def goContains (s sub : List Char) : Bool :=
  match s with
  | [] => sub.isEmpty
  | c :: t => sub.isPrefixOf (c :: t) || goContains t sub

theorem goContains_iff (s sub : List Char) : goContains s sub = true ↔ sub <:+: s := by
  induction s with
  | nil =>
    simp [goContains, List.isEmpty_iff]
  | cons c t ih =>
    rw [goContains, Bool.or_eq_true, ih, List.infix_cons_iff, List.isPrefixOf_iff_prefix]

/-- The pipe needle `" | "` checked by `Execute`. -/
def pipeNeedle : List Char := " | ".data

/-- The prelude `Execute` prepends when the needle occurs. -/
def pipefailPrelude : List Char := "set -o pipefail; ".data

/-- The command string `Execute` passes to `<shell> -c` (source lines
393-397). -/
def execShellCmd (cmd : List Char) : List Char :=
  if goContains cmd pipeNeedle then pipefailPrelude ++ cmd else cmd

/-- C8: the command is prefixed with `set -o pipefail; ` iff it contains
the literal three-character substring space-pipe-space, and is passed
verbatim otherwise. -/
theorem c8_pipefail_iff_needle :
    ∀ cmd : List Char,
      (pipeNeedle <:+: cmd → execShellCmd cmd = pipefailPrelude ++ cmd)
      ∧ (¬ pipeNeedle <:+: cmd → execShellCmd cmd = cmd) := by
  intro cmd
  constructor
  · intro h
    unfold execShellCmd
    rw [if_pos ((goContains_iff cmd pipeNeedle).mpr h)]
  · intro h
    unfold execShellCmd
    rw [if_neg (fun hc => h ((goContains_iff cmd pipeNeedle).mp hc))]

/-- A command containing `" | "` literally. -/
def cmdWithPipe : List Char := "cat in.txt | wc -l".data

/-- A piped command without spaces around the pipe. -/
def cmdTightPipe : List Char := "cat in.txt|wc -l".data

/-- Witness for C8: the spaced pipe gets the pipefail prelude, the tight
pipe is passed verbatim. -/
theorem c8_pipefail_iff_needle_witness :
    execShellCmd cmdWithPipe = pipefailPrelude ++ cmdWithPipe
    ∧ execShellCmd cmdTightPipe = cmdTightPipe := by
  refine ⟨(c8_pipefail_iff_needle cmdWithPipe).1 ?_, (c8_pipefail_iff_needle cmdTightPipe).2 ?_⟩
  · exact (goContains_iff cmdWithPipe pipeNeedle).mp (by decide)
  · exact fun h => absurd ((goContains_iff cmdTightPipe pipeNeedle).mpr h) (by decide)

/-- The local job states the client-side end-state code assigns. -/
inductive JobState
  | delayed
  | ready
  | reserved
  | running
  | lost
  | buried
  | complete
  deriving DecidableEq, Repr

/-- The Job fields the client-side end-state code reads or writes.
`PeakRAM` is in MiB, `CPUtime` in nanoseconds, `StdOutC`/`StdErrC` are
compressed byte blobs.  (`updateRecsAfterFailure`, called by `Release`,
only adjusts the job's resource requirements, which no claim mentions, so
the requirements are not carried here.) -/
structure Job where
  Exited : Bool
  Exitcode : Int
  PeakRAM : Int
  CPUtime : Int
  ActualCwd : String
  StdOutC : List Nat
  StdErrC : List Nat
  UntilBuried : Int
  FailReason : String
  State : JobState
  deriving DecidableEq, Repr

/-- `JobEndState` (source lines 914-922). -/
structure JobEndState where
  Cwd : String
  Exitcode : Int
  PeakRAM : Int
  CPUtime : Int
  Stdout : List Nat
  Stderr : List Nat
  Exited : Bool
  deriving DecidableEq, Repr

/-- Modelled from the spec: the byte compression used for `StdOutC` and
`StdErrC` (the `compress` helper is not among the provided source files;
the spec describes it as plain byte compression).  The claims below depend
only on which fields `ended` writes, never on the encoding, so it is
modelled as the identity on byte lists. -/
def compress (b : List Nat) : List Nat := b

/-- `ended` (source lines 927-954): updates the Job locally after an
execution attempt; a nil `JobEndState`, or one whose `Exited` is false,
returns without modifying the job.  In-memory compression cannot fail
here, so the source's `compress`-error early return is not represented. -/
def ended (job : Job) (jes : Option JobEndState) : Job :=
  match jes with
  | none => job
  | some j =>
    if !j.Exited then job
    else
      let job1 := { job with Exited := true, Exitcode := j.Exitcode,
                             PeakRAM := j.PeakRAM, CPUtime := j.CPUtime }
      let job2 := if j.Cwd ≠ "" then { job1 with ActualCwd := j.Cwd } else job1
      let job3 :=
        if j.Stdout.length > 0 then { job2 with StdOutC := compress j.Stdout } else job2
      if j.Stderr.length > 0 then { job3 with StdErrC := compress j.Stderr } else job3

/-- `Archive` (source lines 960-973): `ended`, then the `jarchive` RPC
(outcome abstracted as `rpcOk`), then on success the local state becomes
complete. -/
def Archive (job : Job) (jes : Option JobEndState) (rpcOk : Bool) : Job :=
  let job1 := ended job jes
  if !rpcOk then job1 else { job1 with State := .complete }

/-- `Release` (source lines 982-1006): `ended`, set `FailReason`, the
`jrelease` RPC, and on success mirror the server: decrement `UntilBuried`
iff the command ran and failed, then mark the job buried or delayed. -/
def Release (job : Job) (jes : Option JobEndState) (failreason : String) (rpcOk : Bool) :
    Job :=
  let job1 := ended job jes
  let job2 := { job1 with FailReason := failreason }
  if !rpcOk then job2
  else
    let job3 :=
      if job2.Exited = true ∧ job2.Exitcode ≠ 0 then
        { job2 with UntilBuried := job2.UntilBuried - 1 }
      else job2
    if job3.UntilBuried ≤ 0 then { job3 with State := .buried }
    else { job3 with State := .delayed }

/-- `Bury` (source lines 1012-1032): `ended`, set `FailReason`, an
optional stderr override that replaces `StdErrC` with the compressed error
text, the `jbury` RPC, and on success the local state becomes buried. -/
def Bury (job : Job) (jes : Option JobEndState) (failreason : String)
    (stderrArg : Option (List Nat)) (rpcOk : Bool) : Job :=
  let job1 := ended job jes
  let job2 := { job1 with FailReason := failreason }
  let job3 :=
    match stderrArg with
    | some e => { job2 with StdErrC := compress e }
    | none => job2
  if !rpcOk then job3 else { job3 with State := .buried }

theorem ended_untilBuried (job : Job) (jes : Option JobEndState) :
    (ended job jes).UntilBuried = job.UntilBuried ∧ (ended job jes).State = job.State := by
  cases jes with
  | none => exact ⟨rfl, rfl⟩
  | some j =>
    unfold ended
    split
    · exact ⟨rfl, rfl⟩
    · split_ifs <;> exact ⟨rfl, rfl⟩

/-- C5: after a `Release` whose RPC succeeds, `UntilBuried` drops by one
iff the command ran and failed (`Exited` true and non-zero `Exitcode` at
the decision point, i.e. after `ended`), and the local state becomes
buried precisely when the resulting `UntilBuried` is ≤ 0 and delayed
otherwise — so `UntilBuried` never goes below zero without the state
becoming buried; a failed RPC leaves `UntilBuried` and `State` unchanged. -/
theorem c5_release_until_buried :
    ∀ (job : Job) (jes : Option JobEndState) (failreason : String),
      (Release job jes failreason true).UntilBuried
        = (if (ended job jes).Exited = true ∧ (ended job jes).Exitcode ≠ 0
           then job.UntilBuried - 1 else job.UntilBuried)
      ∧ (Release job jes failreason true).State
          = (if (Release job jes failreason true).UntilBuried ≤ 0
             then JobState.buried else JobState.delayed)
      ∧ (Release job jes failreason false).UntilBuried = job.UntilBuried
      ∧ (Release job jes failreason false).State = job.State := by
  intro job jes failreason
  obtain ⟨hub, hst⟩ := ended_untilBuried job jes
  refine ⟨?_, ?_, ?_, ?_⟩
  · simp only [Release]
    split_ifs <;> simp_all [hub]
  · simp only [Release]
    split_ifs <;> simp_all
  · simp [Release, hub]
  · simp [Release, hst]

/-- The job fields claim C10 asserts are preserved. -/
def sameEndFields (a b : Job) : Prop :=
  a.Exited = b.Exited ∧ a.Exitcode = b.Exitcode ∧ a.PeakRAM = b.PeakRAM
    ∧ a.CPUtime = b.CPUtime ∧ a.ActualCwd = b.ActualCwd
    ∧ a.StdOutC = b.StdOutC ∧ a.StdErrC = b.StdErrC

/-- A concrete running job for the C10 counterexample. -/
def jobA : Job :=
  { Exited := false, Exitcode := 0, PeakRAM := 0, CPUtime := 0, ActualCwd := "",
    StdOutC := [], StdErrC := [], UntilBuried := 3, FailReason := "", State := .running }

/-- Counterexample to C10 as stated: `Bury` with a nil `JobEndState` but
an explicit stderr error argument (as in `Execute`'s pre-flight bury
calls) overwrites `StdErrC`, so the listed fields are not all unchanged. -/
theorem c10_counterexample :
    (Bury jobA none FailReasonCwd (some [101, 114, 114]) true).StdErrC ≠ jobA.StdErrC := by
  decide

/-- C10 amended: `ended` with a nil `JobEndState`, or one whose `Exited`
is false, returns the job unmodified; `Archive`, `Release`, and `Bury`
without its optional stderr argument then leave `Exited`, `Exitcode`,
`PeakRAM`, `CPUtime`, `ActualCwd`, `StdOutC` and `StdErrC` unchanged (Bury
with an explicit stderr argument still overwrites `StdErrC`). -/
theorem c10_ended_frame :
    ∀ (job : Job) (j : JobEndState) (failreason : String) (rpcOk : Bool),
      ended job none = job
      ∧ ended job (some { j with Exited := false }) = job
      ∧ sameEndFields (Archive job none rpcOk) job
      ∧ sameEndFields (Release job none failreason rpcOk) job
      ∧ sameEndFields (Bury job none failreason none rpcOk) job
      ∧ sameEndFields (Archive job (some { j with Exited := false }) rpcOk) job
      ∧ sameEndFields (Release job (some { j with Exited := false }) failreason rpcOk) job
      ∧ sameEndFields (Bury job (some { j with Exited := false }) failreason none rpcOk)
          job := by
  intro job j failreason rpcOk
  have hnone : ended job none = job := rfl
  have hne : ended job (some { j with Exited := false }) = job := rfl
  refine ⟨hnone, hne, ?_, ?_, ?_, ?_, ?_, ?_⟩ <;>
    cases rpcOk <;>
      simp only [Archive, Release, Bury, hnone, hne] <;>
        split_ifs <;> simp_all [sameEndFields]

/-- The final-state report retry budget (source line 828). -/
def maxRetries : Nat := 300

/-- What the final-state report loop did: whether any attempt succeeded,
how many attempts were made, and the sleeps (in milliseconds) performed
after failed attempts, in order. -/
structure ReportResult where
  worked : Bool
  attempts : Nat
  sleepsMs : List Nat
  deriving DecidableEq, Repr

/-- The report loop of `Execute` (source lines 839-854), with the RPC
outcome of attempt number `retryNum` abstracted as `fails retryNum`: each
iteration makes one end-state call; on error it sleeps
`retryNum * 100` ms and retries, up to the given fuel. -/
def reportGo (fails : Nat → Bool) (retryNum fuel : Nat) : ReportResult :=
  match fuel with
  | 0 => ⟨false, 0, []⟩
  | f + 1 =>
    if fails retryNum then
      let r := reportGo fails (retryNum + 1) f
      ⟨r.worked, r.attempts + 1, retryNum * 100 :: r.sleepsMs⟩
    else ⟨true, 1, []⟩

/-- The report loop as `Execute` runs it: from `retryNum = 0`, at most
`maxRetries` attempts. -/
def reportLoop (fails : Nat → Bool) : ReportResult := reportGo fails 0 maxRetries

/-- What `Execute` does after the loop (source lines 856-863): when no
attempt worked, it triggers the failure behaviours a second time and
returns the rerun-required error. -/
structure ExecWrapUp where
  behavioursTriggeredAgain : Bool
  rerunErrorReturned : Bool
  deriving DecidableEq, Repr

def afterReportLoop (r : ReportResult) : ExecWrapUp :=
  if r.worked then ⟨false, false⟩ else ⟨true, true⟩

theorem reportGo_attempts_le (fails : Nat → Bool) (r f : Nat) :
    (reportGo fails r f).attempts ≤ f := by
  induction f generalizing r with
  | zero => exact Nat.le_refl _
  | succ f ih =>
    unfold reportGo
    split
    · simpa using ih (r + 1)
    · simp

theorem reportGo_not_worked (fails : Nat → Bool) (r f : Nat) :
    (reportGo fails r f).worked = false → (reportGo fails r f).attempts = f := by
  induction f generalizing r with
  | zero => intro _; rfl
  | succ f ih =>
    unfold reportGo
    split
    · intro hw
      simpa using ih (r + 1) (by simpa using hw)
    · intro hw
      simp at hw

theorem reportGo_sleeps (fails : Nat → Bool) (r f : Nat) :
    (reportGo fails r f).sleepsMs
      = (List.range (reportGo fails r f).sleepsMs.length).map (fun i => (r + i) * 100) := by
  induction f generalizing r with
  | zero => rfl
  | succ f ih =>
    by_cases hfr : fails r
    · have hstep : reportGo fails r (f + 1)
          = ⟨(reportGo fails (r + 1) f).worked, (reportGo fails (r + 1) f).attempts + 1,
             r * 100 :: (reportGo fails (r + 1) f).sleepsMs⟩ := by
        conv_lhs => unfold reportGo
        rw [if_pos hfr]
      rw [hstep]
      show r * 100 :: (reportGo fails (r + 1) f).sleepsMs
          = (List.range (r * 100 :: (reportGo fails (r + 1) f).sleepsMs).length).map
              (fun i => (r + i) * 100)
      rw [List.length_cons, List.range_succ_eq_map, List.map_cons, List.map_map]
      rw [List.cons.injEq]
      refine ⟨by omega, ?_⟩
      rw [ih (r + 1)]
      rw [List.length_map, List.length_range]
      exact List.map_congr_left fun a _ => by simp [Function.comp]; omega
    · have hstep : reportGo fails r (f + 1) = ⟨true, 1, []⟩ := by
        conv_lhs => unfold reportGo
        rw [if_neg hfr]
      rw [hstep]
      rfl

theorem chainLe_range_mul (n : Nat) :
    List.Chain' (· ≤ ·) ((List.range n).map (fun i => i * 100)) := by
  refine List.Pairwise.chain' ?_
  refine List.Pairwise.map _ (fun a b hab => ?_) (List.pairwise_lt_range n)
  omega

/-- C6: each iteration of the final report loop makes exactly one of the
Bury/Release/Archive calls (the classifier always sets a disposition flag
and the loop's if/else chain picks a single call from it); the loop makes
at most 300 attempts, and the sleep after the failed attempt numbered
`retryNum` is `retryNum * 100` ms, so the backoff sequence is
`0, 100, 200, …` — monotonically nondecreasing from 0 ms; when the loop
gives up, all 300 attempts failed, failure behaviours are triggered a
second time, and `Execute` returns the rerun-required error. -/
theorem c6_report_retry :
    ∀ (w : WaitResult) (rm sg rt kc : Bool) (fails : Nat → Bool),
      (dispositionOf (classify w rm sg rt kc)).isSome = true
      ∧ (reportLoop fails).attempts ≤ maxRetries
      ∧ (reportLoop fails).sleepsMs
          = (List.range (reportLoop fails).sleepsMs.length).map (fun i => i * 100)
      ∧ List.Chain' (· ≤ ·) (reportLoop fails).sleepsMs
      ∧ ((reportLoop fails).worked = false → (reportLoop fails).attempts = maxRetries)
      ∧ afterReportLoop (reportLoop fails)
          = ⟨!(reportLoop fails).worked, !(reportLoop fails).worked⟩ := by
  intro w rm sg rt kc fails
  have hsleeps : (reportLoop fails).sleepsMs
      = (List.range (reportLoop fails).sleepsMs.length).map (fun i => i * 100) := by
    simpa using reportGo_sleeps fails 0 maxRetries
  refine ⟨?_, reportGo_attempts_le fails 0 maxRetries, hsleeps, ?_,
    reportGo_not_worked fails 0 maxRetries, ?_⟩
  · cases w with
    | ok c => simp [classify, dispositionOf]
    | internalErr => simp [classify, dispositionOf]
    | exitErr c =>
      simp only [classify]
      split_ifs <;> simp [dispositionOf]
  · rw [hsleeps]
    exact chainLe_range_mul _
  · cases h : (reportLoop fails).worked <;> simp [afterReportLoop, h]

set_option maxRecDepth 4000 in
/-- Witness for C6: when every report attempt fails, the loop stops after
exactly 300 attempts. -/
theorem c6_report_retry_witness :
    (reportLoop (fun _ => true)).attempts = maxRetries :=
  (c6_report_retry (.ok 0) false false false false (fun _ => true)).2.2.2.2.1 (by decide)

/-- The upload-failure needle checked on the `Unmount` error text. -/
def uploadNeedle : List Char := "failed to upload".data

/-- The disposition-relevant state of `Execute` at the post-run `Unmount`
call. -/
structure UnmountCtx where
  dobury : Bool
  dorelease : Bool
  doarchive : Bool
  failreason : String
  exitcode : Int
  deriving DecidableEq, Repr

/-- The end-state call the report loop would make from this context
(same if/else chain as `dispositionOf`). -/
def unmountDisposition (st : UnmountCtx) : Option Disposition :=
  if st.dobury then some .bury
  else if st.dorelease then some .release
  else if st.doarchive then some .archive
  else none

/-- The post-run `Unmount` error handling of `Execute` (source lines
776-798): when the unmount error text contains "failed to upload", set
`dorelease` unless the job is already being buried, record the upload fail
reason if none is recorded yet, and override a zero exit code to -2. -/
def applyUnmountErr (st : UnmountCtx) (unmountErr : Option (List Char)) : UnmountCtx :=
  match unmountErr with
  | none => st
  | some e =>
    if goContains e uploadNeedle then
      let st1 := if !st.dobury then { st with dorelease := true } else st
      let st2 := if st1.failreason = "" then { st1 with failreason := FailReasonUpload } else st1
      if st2.exitcode = 0 then { st2 with exitcode := -2 } else st2
    else st

/-- C7: when the post-run `Unmount` error text contains "failed to
upload", an archive disposition is upgraded to release while a bury
disposition stays bury, the fail reason becomes the upload-failure reason
exactly when it was still empty, and the exit code becomes -2 exactly when
it was 0. -/
theorem c7_upload_failure_upgrade :
    ∀ (st : UnmountCtx) (e : List Char),
      uploadNeedle <:+: e →
        (unmountDisposition st = some .archive →
          unmountDisposition (applyUnmountErr st (some e)) = some .release)
        ∧ (st.dobury = true →
            (applyUnmountErr st (some e)).dobury = true
            ∧ unmountDisposition (applyUnmountErr st (some e)) = some .bury)
        ∧ (applyUnmountErr st (some e)).failreason
            = (if st.failreason = "" then FailReasonUpload else st.failreason)
        ∧ (applyUnmountErr st (some e)).exitcode
            = (if st.exitcode = 0 then -2 else st.exitcode) := by
  intro st e he
  have hc : goContains e uploadNeedle = true := (goContains_iff e uploadNeedle).mpr he
  refine ⟨?_, ?_, ?_, ?_⟩
  · intro harch
    have hb : st.dobury = false := by
      by_contra hb
      rw [Bool.not_eq_false] at hb
      simp [unmountDisposition, hb] at harch
    simp only [applyUnmountErr, unmountDisposition, hc, if_pos, hb]
    split_ifs <;> simp_all [unmountDisposition]
  · intro hb
    simp only [applyUnmountErr, hc, if_pos, hb]
    constructor
    · split_ifs <;> simp_all
    · split_ifs <;> simp_all [unmountDisposition]

  · simp only [applyUnmountErr, hc, if_pos]
    split_ifs <;> simp_all
  · simp only [applyUnmountErr, hc, if_pos]
    split_ifs <;> simp_all

/-- A concrete upload-failure error text. -/
def uploadErrText : List Char := "unmounting failed to upload files".data

/-- Witness for C7 at a concrete input: an archive disposition with no
fail reason and exit code 0 becomes release with the upload fail reason
and exit code -2. -/
theorem c7_upload_failure_upgrade_witness :
    unmountDisposition
        (applyUnmountErr ⟨false, false, true, "", 0⟩ (some uploadErrText)) = some .release
    ∧ (applyUnmountErr ⟨false, false, true, "", 0⟩ (some uploadErrText)).failreason
        = FailReasonUpload
    ∧ (applyUnmountErr ⟨false, false, true, "", 0⟩ (some uploadErrText)).exitcode = -2 := by
  have h := c7_upload_failure_upgrade ⟨false, false, true, "", 0⟩ uploadErrText
    ((goContains_iff uploadErrText uploadNeedle).mp (by decide))
  exact ⟨h.1 rfl, by simpa using h.2.2.1, by simpa using h.2.2.2⟩

/-- The actions a client method performs on the end-state mutex
(`teMutex`) and the wire. -/
inductive TEAct
  | acq
  | rpcStart
  | rpcEnd
  | rel
  deriving DecidableEq, Repr

/-- `Touch` (source lines 897-905): lock `teMutex`, perform the `jtouch`
request, unlock (deferred). -/
def touchProg : List TEAct := [.acq, .rpcStart, .rpcEnd, .rel]

/-- An end-state method (`Archive` source lines 960-973, `Release` lines
982-1006, `Bury` lines 1012-1032): `ended` locks and unlocks `teMutex`,
then the method locks it again around its own request. -/
def endStateProg : List TEAct := [.acq, .rel, .acq, .rpcStart, .rpcEnd, .rel]

/-- Interleaved execution state: the mutex owner (`some false` = the
touch goroutine, `some true` = the end-state caller, `none` = free) and
the two program counters into `touchProg` and `endStateProg`. -/
abbrev TESt := Option Bool × Fin 5 × Fin 7

def teProgOf (t : Bool) : List TEAct := if t then endStateProg else touchProg

def tePc (s : TESt) (t : Bool) : Nat := if t then (s.2.2 : Nat) else (s.2.1 : Nat)

def teAdvance (s : TESt) (t : Bool) : TESt :=
  if t then (s.1, s.2.1, s.2.2 + 1) else (s.1, s.2.1 + 1, s.2.2)

/-- One scheduler step: thread `t` performs its next action when enabled —
`Lock` blocks unless the mutex is free, `Unlock` requires ownership, and
the RPC send/receive actions carry no constraint of their own (their
mutual exclusion is what is to be proved). -/
def teStep (s : TESt) (t : Bool) : Option TESt :=
  match (teProgOf t).get? (tePc s t) with
  | none => none
  | some .acq =>
    match s.1 with
    | none => some (teAdvance (some t, s.2) t)
    | some _ => none
  | some .rel => if s.1 = some t then some (teAdvance (none, s.2) t) else none
  | some .rpcStart => some (teAdvance s t)
  | some .rpcEnd => some (teAdvance s t)

/-- Thread `t` holds the mutex according to its program position: the
touch program between its lock and unlock, the end-state program inside
either of its two lock/unlock brackets. -/
def teHolds (t : Bool) (s : TESt) : Bool :=
  if t then decide ((s.2.2 : Nat) = 1 ∨ (3 ≤ (s.2.2 : Nat) ∧ (s.2.2 : Nat) ≤ 5))
  else decide (1 ≤ (s.2.1 : Nat) ∧ (s.2.1 : Nat) ≤ 3)

/-- The lock-discipline invariant: the mutex owner is exactly the thread
whose program position is inside a lock/unlock bracket. -/
def teInv (s : TESt) : Bool :=
  decide ((s.1 = some false) ↔ teHolds false s = true)
    && decide ((s.1 = some true) ↔ teHolds true s = true)

theorem teStep_inv :
    ∀ (s : TESt) (t : Bool), teInv s = true → (teStep s t).all teInv = true := by
  decide

/-- The states reachable by interleaving the `Touch` and end-state
programs from the initial state (mutex free, both programs at their
start). -/
inductive TEReach : TESt → Prop
  | init : TEReach (none, 0, 0)
  | step (t : Bool) {s s' : TESt} : TEReach s → teStep s t = some s' → TEReach s'

theorem teReach_inv {s : TESt} (h : TEReach s) : teInv s = true := by
  induction h with
  | init => decide
  | step t hr hstep ih =>
    have hall := teStep_inv _ t ih
    rw [hstep] at hall
    simpa using hall

/-- C9: in every interleaving of a `Touch` with one of the end-state
methods that respects the `teMutex` lock semantics, the touch RPC and the
end-state RPC are never both in flight (touch program counter 2 means its
request is on the wire, end-state counter 4 likewise), because both
surround their request with the same mutex. -/
theorem c9_touch_endstate_exclusion :
    ∀ s : TESt, TEReach s → ¬((s.2.1 : Nat) = 2 ∧ (s.2.2 : Nat) = 4) := by
  have haux : ∀ s : TESt, teInv s = true → ¬((s.2.1 : Nat) = 2 ∧ (s.2.2 : Nat) = 4) := by
    decide
  intro s hr
  exact haux s (teReach_inv hr)

/-- Witness for C9: the state where the touch goroutine is mid-RPC
(reached by its lock then its send) is reachable, and the end-state RPC is
not in flight there. -/
theorem c9_touch_endstate_exclusion_witness :
    ¬((((some false, 2, 0) : TESt).2.1 : Nat) = 2
        ∧ (((some false, 2, 0) : TESt).2.2 : Nat) = 4) := by
  have h1 : teStep (none, 0, 0) false = some (some false, 1, 0) := rfl
  have h2 : teStep (some false, 1, 0) false = some (some false, 2, 0) := rfl
  exact c9_touch_endstate_exclusion _
    (TEReach.step false (TEReach.step false TEReach.init h1) h2)

end Jobqueue
